import Mathlib

/-!
Verification of the FATE-Flow DAG scheduler
(fate_flow/scheduler/dag_scheduler.py, class DAGScheduler).

The scheduler's pure aggregation algorithms are embedded directly; its
stateful phases are embedded as functions from the job record and the
outcomes of the external federated collaborators to the updated record and
the list of federated effects they issue.
-/

namespace FateFlow

/-- Status taxonomy shared by jobs and tasks.  In the source these are the
string constants of fate_flow.entity.run_status (JobStatus / TaskStatus draw
from one StatusSet); the spec lists WAITING, RUNNING, SUCCESS, FAILED,
CANCELED plus the legacy alias PASS. -/
inductive Status where
  | WAITING
  | RUNNING
  | CANCELED
  | FAILED
  | PASS
  | SUCCESS
deriving DecidableEq, Repr

/-- Modelled from the spec: the scheduling signal returned by the external
task scheduler (run_status.SchedulingStatusCode is not part of the provided
source).  HAVE_NEXT means more work is scheduled, NO_NEXT means no further
work; the source compares the code against each of these two constants
separately, so a third value (a scheduling failure) is also possible. -/
inductive SchedulingStatusCode where
  | HAVE_NEXT
  | NO_NEXT
  | FAILED
deriving DecidableEq, Repr

/-- Modelled from the spec: the fixed severity ranking used for tie-breaking
(run_status.StatusSet.get_level), increasing through the lifecycle, with
FAILED ranking above CANCELED among the failure-class terminal statuses. -/
def Status.level : Status → Nat
  | .WAITING => 1
  | .RUNNING => 2
  | .CANCELED => 3
  | .FAILED => 4
  | .PASS => 5
  | .SUCCESS => 6

/-- Modelled from the spec: InterruptStatus.status_list(), the failure-class
terminal statuses, ordered by increasing severity as recorded in StatusSet. -/
def interrupt_status_list : List Status := [.CANCELED, .FAILED]

/-- Insertion step of sorting by decreasing severity level. -/
def insertByLevelDesc (s : Status) : List Status → List Status
  | [] => [s]
  | t :: ts => if t.level ≤ s.level then s :: t :: ts else t :: insertByLevelDesc s ts

/-- Sorting by decreasing severity level, as the source's
sorted(InterruptStatus.status_list(), key=get_level, reverse=True). -/
def sortByLevelDesc (l : List Status) : List Status := l.foldr insertByLevelDesc []

/-- Normalization of the legacy PASS alias performed on the status set:
PASS is removed and SUCCESS is added in its place. -/
def normalizeStatus (s : Status) : Status := if s = .PASS then .SUCCESS else s

/-- The deduplicated, PASS-normalized status set built at the top of
calculate_job_status.  A Python set is modelled as a duplicate-free list;
only membership, size and set equality are ever observed on it. -/
def jobStatusSet (tasks_status : List Status) : List Status :=
  (tasks_status.dedup.map normalizeStatus).dedup

/-- Equality of two lists viewed as sets. -/
def eqSet (a b : List Status) : Bool :=
  (a.all fun x => decide (x ∈ b)) && (b.all fun x => decide (x ∈ a))

/-- Embedding of DAGScheduler.calculate_job_status.  The value none models
the aggregation exception raised at the end of the source function. -/
def calculate_job_status (task_scheduling_status_code : SchedulingStatusCode)
    (tasks_status : List Status) : Option Status :=
  let tmp_status_set := jobStatusSet tasks_status
  if tmp_status_set.length = 1 then
    tmp_status_set.head?
  else if Status.RUNNING ∈ tmp_status_set then
    some .RUNNING
  else if Status.WAITING ∈ tmp_status_set ∧ task_scheduling_status_code = .HAVE_NEXT then
    some .RUNNING
  else
    match (sortByLevelDesc interrupt_status_list).find? (fun s => decide (s ∈ tmp_status_set)) with
    | some st => some st
    | none =>
      if eqSet tmp_status_set [.WAITING, .SUCCESS] ∧ task_scheduling_status_code = .NO_NEXT then
        some .CANCELED
      else
        none

/-- Membership in the normalized status set is the image of normalization. -/
theorem mem_jobStatusSet {x : Status} {l : List Status} :
    x ∈ jobStatusSet l ↔ ∃ y ∈ l, normalizeStatus y = x := by
  simp [jobStatusSet, List.mem_dedup, List.mem_map]

/-- For a status other than PASS and SUCCESS, membership in the normalized
set coincides with membership in the raw list. -/
theorem mem_jobStatusSet_of_fix {x : Status} {l : List Status}
    (h1 : x ≠ .PASS) (h2 : x ≠ .SUCCESS) :
    x ∈ jobStatusSet l ↔ x ∈ l := by
  rw [mem_jobStatusSet]
  constructor
  · rintro ⟨y, hy, hnorm⟩
    cases y <;> simp [normalizeStatus] at hnorm <;> subst hnorm <;> first
      | exact hy
      | exact absurd rfl h2
  · intro hx
    refine ⟨x, hx, ?_⟩
    cases x <;> simp [normalizeStatus] <;> exact absurd rfl h1

/-- The normalized status set is duplicate-free. -/
theorem jobStatusSet_nodup (l : List Status) : (jobStatusSet l).Nodup :=
  List.nodup_dedup _

/-- A duplicate-free nonempty list whose members are all v is the singleton. -/
theorem nodup_all_eq_singleton {v : Status} :
    ∀ {L : List Status}, L.Nodup → L ≠ [] → (∀ x ∈ L, x = v) → L = [v] := by
  intro L hnd hne hall
  match L with
  | [] => exact absurd rfl hne
  | a :: t =>
    have ha : a = v := hall a (List.mem_cons_self a t)
    subst ha
    match t with
    | [] => rfl
    | b :: t2 =>
      have hb : b = a := (hall b (by simp)).trans (hall a (by simp)).symm
      have hmem : a ∈ b :: t2 := hb ▸ List.mem_cons_self b t2
      exact absurd hmem (List.nodup_cons.mp hnd).1

/-- A uniformly-normalizing task list has the singleton normalized set. -/
theorem jobStatusSet_uniform {v : Status} {l : List Status} (hne : l ≠ [])
    (h : ∀ x ∈ l, normalizeStatus x = v) : jobStatusSet l = [v] := by
  refine nodup_all_eq_singleton (jobStatusSet_nodup l) ?_ ?_
  · match l with
    | [] => exact absurd rfl hne
    | y :: t =>
      have : normalizeStatus y ∈ jobStatusSet (y :: t) :=
        mem_jobStatusSet.mpr ⟨y, List.mem_cons_self y t, rfl⟩
      intro hnil
      rw [hnil] at this
      exact absurd this (List.not_mem_nil _)
  · intro x hx
    obtain ⟨y, hy, hnorm⟩ := mem_jobStatusSet.mp hx
    rw [← hnorm]
    exact h y hy

/-- C1: for every task-status multiset whose normalization (PASS replaced by
SUCCESS) contains exactly one distinct value, calculate_job_status returns
that value as the job status, for any scheduling signal; in particular a
uniform multiset of SUCCESS and a uniform multiset of PASS both yield
SUCCESS. -/
theorem calculate_job_status_uniform (code : SchedulingStatusCode)
    (l : List Status) (v : Status) (hne : l ≠ [])
    (h : ∀ x ∈ l, normalizeStatus x = v) :
    calculate_job_status code l = some v := by
  have htmp : jobStatusSet l = [v] := jobStatusSet_uniform hne h
  simp [calculate_job_status, htmp]

/-- Witness for C1: a uniform multiset of PASS statuses yields SUCCESS. -/
theorem calculate_job_status_uniform_witness :
    calculate_job_status .NO_NEXT [.PASS, .PASS, .PASS] = some .SUCCESS :=
  calculate_job_status_uniform .NO_NEXT [.PASS, .PASS, .PASS] .SUCCESS
    (by decide) (by decide)

/-- A list holding two distinct members has more than one element. -/
theorem one_lt_length_of_two_mem {α : Type} {x y : α} :
    ∀ {L : List α}, x ∈ L → y ∈ L → x ≠ y → 1 < L.length := by
  intro L hx hy hne
  match L with
  | [] => cases hx
  | [a] =>
    simp only [List.mem_singleton] at hx hy
    exact absurd (hx.trans hy.symm) hne
  | a :: b :: t =>
    simp only [List.length_cons]
    omega

/-- More than one distinct normalized value makes the normalized set larger
than a singleton. -/
theorem one_lt_jobStatusSet_length {l : List Status}
    (h : ∃ x ∈ l, ∃ y ∈ l, normalizeStatus x ≠ normalizeStatus y) :
    1 < (jobStatusSet l).length := by
  obtain ⟨x, hx, y, hy, hne⟩ := h
  exact one_lt_length_of_two_mem
    (mem_jobStatusSet.mpr ⟨x, hx, rfl⟩) (mem_jobStatusSet.mpr ⟨y, hy, rfl⟩) hne

/-- The interrupt-status severity sort is FAILED before CANCELED. -/
theorem sorted_interrupt :
    sortByLevelDesc interrupt_status_list = [Status.FAILED, Status.CANCELED] := by decide

/-- C2: for every task-status multiset with more than one distinct normalized
value, if RUNNING is present then calculate_job_status returns RUNNING
regardless of the other statuses and the scheduling signal; otherwise, if
WAITING is present and the scheduling signal is HAVE_NEXT it also returns
RUNNING. -/
theorem calculate_job_status_running (code : SchedulingStatusCode) (l : List Status)
    (hvar : ∃ x ∈ l, ∃ y ∈ l, normalizeStatus x ≠ normalizeStatus y)
    (h : Status.RUNNING ∈ l ∨ (Status.WAITING ∈ l ∧ code = SchedulingStatusCode.HAVE_NEXT)) :
    calculate_job_status code l = some Status.RUNNING := by
  have hcard := one_lt_jobStatusSet_length hvar
  have h1 : ¬ (jobStatusSet l).length = 1 := by omega
  by_cases hR : Status.RUNNING ∈ jobStatusSet l
  · simp only [calculate_job_status]
    rw [if_neg h1, if_pos hR]
  · have hW : Status.WAITING ∈ l ∧ code = SchedulingStatusCode.HAVE_NEXT := by
      rcases h with hrun | hw
      · exact absurd ((mem_jobStatusSet_of_fix (by decide) (by decide)).mpr hrun) hR
      · exact hw
    have hWm : Status.WAITING ∈ jobStatusSet l :=
      (mem_jobStatusSet_of_fix (by decide) (by decide)).mpr hW.1
    simp only [calculate_job_status]
    rw [if_neg h1, if_neg hR, if_pos ⟨hWm, hW.2⟩]

/-- Witness for C2: RUNNING together with SUCCESS aggregates to RUNNING. -/
theorem calculate_job_status_running_witness :
    calculate_job_status .NO_NEXT [.RUNNING, .SUCCESS] = some .RUNNING :=
  calculate_job_status_running .NO_NEXT [.RUNNING, .SUCCESS]
    ⟨.RUNNING, by decide, .SUCCESS, by decide, by decide⟩ (Or.inl (by decide))

/-- C3: for every non-uniform task-status multiset without RUNNING and
without a dispatchable WAITING: a present failure-class terminal status wins
by the fixed severity ranking (FAILED over CANCELED), determined by
membership only and hence independent of input order; with neither present
the normalized set is exactly the pair WAITING, SUCCESS and the result is
CANCELED under the NO_NEXT signal and the aggregation error otherwise. -/
theorem calculate_job_status_mixed_terminal (code : SchedulingStatusCode) (l : List Status)
    (hvar : ∃ x ∈ l, ∃ y ∈ l, normalizeStatus x ≠ normalizeStatus y)
    (hrun : Status.RUNNING ∉ l)
    (hwait : ¬(Status.WAITING ∈ l ∧ code = SchedulingStatusCode.HAVE_NEXT)) :
    (Status.FAILED ∈ l → calculate_job_status code l = some Status.FAILED) ∧
    (Status.FAILED ∉ l → Status.CANCELED ∈ l →
      calculate_job_status code l = some Status.CANCELED) ∧
    (Status.FAILED ∉ l → Status.CANCELED ∉ l →
      eqSet (jobStatusSet l) [Status.WAITING, Status.SUCCESS] = true ∧
      calculate_job_status code l =
        if code = SchedulingStatusCode.NO_NEXT then some Status.CANCELED else none) := by
  have hcard := one_lt_jobStatusSet_length hvar
  have h1 : ¬ (jobStatusSet l).length = 1 := by omega
  have hRm : Status.RUNNING ∉ jobStatusSet l := fun hm =>
    hrun ((mem_jobStatusSet_of_fix (by decide) (by decide)).mp hm)
  have hWA : ¬(Status.WAITING ∈ jobStatusSet l ∧ code = SchedulingStatusCode.HAVE_NEXT) := by
    rintro ⟨hwm, hc⟩
    exact hwait ⟨(mem_jobStatusSet_of_fix (by decide) (by decide)).mp hwm, hc⟩
  refine ⟨?_, ?_, ?_⟩
  · intro hF
    have hFm : Status.FAILED ∈ jobStatusSet l :=
      (mem_jobStatusSet_of_fix (by decide) (by decide)).mpr hF
    have hfind : List.find? (fun s => decide (s ∈ jobStatusSet l))
        [Status.FAILED, Status.CANCELED] = some Status.FAILED :=
      List.find?_cons_of_pos _ (by simpa using hFm)
    simp only [calculate_job_status]
    rw [if_neg h1, if_neg hRm, if_neg hWA, sorted_interrupt, hfind]
  · intro hF hC
    have hFm : Status.FAILED ∉ jobStatusSet l := fun hm =>
      hF ((mem_jobStatusSet_of_fix (by decide) (by decide)).mp hm)
    have hCm : Status.CANCELED ∈ jobStatusSet l :=
      (mem_jobStatusSet_of_fix (by decide) (by decide)).mpr hC
    have hfind : List.find? (fun s => decide (s ∈ jobStatusSet l))
        [Status.FAILED, Status.CANCELED] = some Status.CANCELED := by
      rw [List.find?_cons_of_neg _ (by simpa using hFm)]
      exact List.find?_cons_of_pos _ (by simpa using hCm)
    simp only [calculate_job_status]
    rw [if_neg h1, if_neg hRm, if_neg hWA, sorted_interrupt, hfind]
  · intro hF hC
    have hFm : Status.FAILED ∉ jobStatusSet l := fun hm =>
      hF ((mem_jobStatusSet_of_fix (by decide) (by decide)).mp hm)
    have hCm : Status.CANCELED ∉ jobStatusSet l := fun hm =>
      hC ((mem_jobStatusSet_of_fix (by decide) (by decide)).mp hm)
    have hmem : ∀ x ∈ l, normalizeStatus x = .WAITING ∨ normalizeStatus x = .SUCCESS := by
      intro x hx
      cases x with
      | WAITING => left; decide
      | RUNNING => exact absurd hx hrun
      | CANCELED => exact absurd hx hC
      | FAILED => exact absurd hx hF
      | PASS => right; decide
      | SUCCESS => right; decide
    have hsub : ∀ x ∈ jobStatusSet l, x = Status.WAITING ∨ x = Status.SUCCESS := by
      intro x hx
      obtain ⟨y, hy, hn⟩ := mem_jobStatusSet.mp hx
      rw [← hn]
      exact hmem y hy
    have hnonnil : jobStatusSet l ≠ [] := by
      intro hnil
      rw [hnil] at hcard
      simp at hcard
    have hWin : Status.WAITING ∈ jobStatusSet l := by
      by_contra hno
      have hallS : ∀ x ∈ jobStatusSet l, x = Status.SUCCESS := by
        intro x hx
        rcases hsub x hx with he | he
        · exact absurd (he ▸ hx) hno
        · exact he
      have hsingle := nodup_all_eq_singleton (jobStatusSet_nodup l) hnonnil hallS
      rw [hsingle] at hcard
      simp at hcard
    have hSin : Status.SUCCESS ∈ jobStatusSet l := by
      by_contra hno
      have hallW : ∀ x ∈ jobStatusSet l, x = Status.WAITING := by
        intro x hx
        rcases hsub x hx with he | he
        · exact he
        · exact absurd (he ▸ hx) hno
      have hsingle := nodup_all_eq_singleton (jobStatusSet_nodup l) hnonnil hallW
      rw [hsingle] at hcard
      simp at hcard
    have hcode : code ≠ SchedulingStatusCode.HAVE_NEXT := fun hc =>
      hwait ⟨(mem_jobStatusSet_of_fix (by decide) (by decide)).mp hWin, hc⟩
    have heq : eqSet (jobStatusSet l) [Status.WAITING, Status.SUCCESS] = true := by
      simp only [eqSet, Bool.and_eq_true, List.all_eq_true, decide_eq_true_eq]
      constructor
      · intro x hx
        rcases hsub x hx with he | he <;> simp [he]
      · intro x hx
        rcases List.mem_pair.mp hx with he | he <;> rw [he]
        · exact hWin
        · exact hSin
    have hfind : List.find? (fun s => decide (s ∈ jobStatusSet l))
        [Status.FAILED, Status.CANCELED] = none := by
      rw [List.find?_cons_of_neg _ (by simpa using hFm),
        List.find?_cons_of_neg _ (by simpa using hCm)]
      rfl
    refine ⟨heq, ?_⟩
    simp only [calculate_job_status]
    rw [if_neg h1, if_neg hRm, if_neg hWA, sorted_interrupt, hfind]
    cases code with
    | HAVE_NEXT => exact absurd rfl hcode
    | NO_NEXT => simp [heq]
    | FAILED => simp

/-- Witness for C3: FAILED together with CANCELED aggregates to FAILED, the
higher-severity interrupt status. -/
theorem calculate_job_status_mixed_terminal_witness :
    calculate_job_status .NO_NEXT [.FAILED, .CANCELED] = some .FAILED :=
  (calculate_job_status_mixed_terminal .NO_NEXT [.FAILED, .CANCELED]
    ⟨.FAILED, by decide, .CANCELED, by decide, by decide⟩
    (by decide) (by decide)).1 (by decide)

/-- Modelled from the spec: EndStatus, the terminal statuses SUCCESS, FAILED
and CANCELED (run_status.EndStatus is not part of the provided source). -/
def EndStatus.contains : Status → Bool
  | .SUCCESS => true
  | .FAILED => true
  | .CANCELED => true
  | _ => false

/-- Embedding of DAGScheduler.calculate_job_progress: one pass over the task
statuses counting every task and the tasks bearing a terminal status. -/
def calculate_job_progress (tasks_status : List Status) : Nat × Nat :=
  tasks_status.foldl
    (fun acc task_status =>
      (acc.1 + 1, if EndStatus.contains task_status then acc.2 + 1 else acc.2))
    (0, 0)

/-- Python float division, which raises ZeroDivisionError on a zero
denominator instead of returning a value. -/
def pyDiv (a b : ℚ) : Option ℚ := if b = 0 then none else some (a / b)

/-- Python int() conversion: truncation toward zero. -/
def pyInt (q : ℚ) : ℤ := if q < 0 then ⌈q⌉ else ⌊q⌋

/-- The progress computation of schedule_running_job:
new_progress = float(finished_count) / total * 100, with no guard on the
denominator. -/
def new_progress_of (tasks_status : List Status) : Option ℚ :=
  let tf := calculate_job_progress tasks_status
  (pyDiv (tf.2 : ℚ) (tf.1 : ℚ)).map (· * 100)

/-- The slice of the Job record mutated by the running-job reconciliation. -/
structure JobView where
  f_status : Status
  f_progress : ℚ
  f_cancel_signal : Bool
deriving DecidableEq, Repr

/-- Federated effects issued by the status/progress write block of
schedule_running_job. -/
inductive SyncEffect where
  | sync_job (update_fields : List String)
  | sync_job_status
  | update_on_initiator (update_fields : List String)
  | save_pipelined_model
deriving DecidableEq, Repr

/-- Embedding of the status/progress write block of
DAGScheduler.schedule_running_job (the two separately-guarded field writes
and the propagation calls each one issues). -/
def running_status_progress_update (job : JobView) (new_job_status : Status)
    (new_progress : ℚ) : JobView × List SyncEffect :=
  if new_job_status ≠ job.f_status ∨ new_progress ≠ job.f_progress then
    let step1 :=
      if (pyInt new_progress : ℚ) - job.f_progress > 0 then
        ({ job with f_progress := new_progress },
         [SyncEffect.sync_job ["progress"], SyncEffect.update_on_initiator ["progress"]])
      else
        (job, [])
    if new_job_status ≠ step1.1.f_status then
      ({ step1.1 with f_status := new_job_status },
       step1.2
         ++ (if EndStatus.contains new_job_status then [SyncEffect.save_pipelined_model] else [])
         ++ [SyncEffect.sync_job_status, SyncEffect.update_on_initiator ["status"]])
    else
      step1
  else
    (job, [])

/-- Embedding of the reconciliation core of DAGScheduler.schedule_running_job:
status aggregation, the cancel-signal override of a WAITING outcome, the
progress computation and the write block.  The value none models an
exception escaping the phase (aggregation error or zero division). -/
def schedule_running_job (job : JobView) (task_scheduling_status_code : SchedulingStatusCode)
    (tasks_status : List Status) : Option (JobView × List SyncEffect) :=
  match calculate_job_status task_scheduling_status_code tasks_status with
  | none => none
  | some s =>
    let new_job_status :=
      if s = Status.WAITING ∧ job.f_cancel_signal then Status.CANCELED else s
    match new_progress_of tasks_status with
    | none => none
    | some new_progress => some (running_status_progress_update job new_job_status new_progress)

/-- Iterated reconciliation of one job: each step feeds the job view produced
by the previous write block into the next one. -/
def run_reconciliations (job : JobView) (steps : List (Status × ℚ)) : JobView :=
  steps.foldl (fun j st => (running_status_progress_update j st.1 st.2).1) job

/-- The accumulator pass of calculate_job_progress totals the list length and
the number of terminal statuses. -/
theorem calculate_job_progress_spec (tasks_status : List Status) :
    calculate_job_progress tasks_status =
      (tasks_status.length, (tasks_status.filter EndStatus.contains).length) := by
  have hgen : ∀ (l : List Status) (a b : Nat),
      l.foldl (fun acc ts => (acc.1 + 1, if EndStatus.contains ts then acc.2 + 1 else acc.2)) (a, b)
        = (a + l.length, b + (l.filter EndStatus.contains).length) := by
    intro l
    induction l with
    | nil => intro a b; simp
    | cons x xs ih =>
      intro a b
      by_cases hx : EndStatus.contains x <;>
        simp [List.foldl_cons, hx, ih, List.filter_cons] <;> omega
  simpa using hgen tasks_status 0 0

/-- C9: the progress computation finished_count / total * 100 carries no
guard on the denominator, so it is only defined when at least one task is
reported; on an empty task list the division's denominator is zero and the
reconciliation fails instead of producing a progress value. -/
theorem progress_requires_nonempty_tasks (job : JobView)
    (code : SchedulingStatusCode) (l : List Status) :
    (l = [] → new_progress_of l = none ∧ schedule_running_job job code l = none) ∧
    (l ≠ [] → new_progress_of l =
      some (((l.filter EndStatus.contains).length : ℚ) / (l.length : ℚ) * 100)) := by
  constructor
  · rintro rfl
    have hcalc : calculate_job_status code [] = none := by
      cases code <;> decide
    constructor
    · simp [new_progress_of, calculate_job_progress, pyDiv]
    · simp [schedule_running_job, hcalc]
  · intro hne
    have hlen : ((l.length : ℚ)) ≠ 0 := by
      have : 0 < l.length := List.length_pos.mpr hne
      positivity
    simp [new_progress_of, calculate_job_progress_spec, pyDiv, hlen]

/-- Witness for C9: the empty task list yields no progress value, a
one-task list yields one. -/
theorem progress_requires_nonempty_tasks_witness :
    new_progress_of [] = none ∧
    new_progress_of [Status.SUCCESS] =
      some ((([Status.SUCCESS].filter EndStatus.contains).length : ℚ) /
        (([Status.SUCCESS].length : ℚ)) * 100) :=
  ⟨((progress_requires_nonempty_tasks ⟨Status.RUNNING, 0, false⟩ .NO_NEXT []).1 rfl).1,
   (progress_requires_nonempty_tasks ⟨Status.RUNNING, 0, false⟩ .NO_NEXT
      [Status.SUCCESS]).2 (by decide)⟩

/-- Truncation toward zero of a nonnegative rational stays below it. -/
theorem pyInt_le_of_nonneg {q : ℚ} (h : 0 ≤ q) : (pyInt q : ℚ) ≤ q := by
  unfold pyInt
  rw [if_neg (not_lt.mpr h)]
  exact_mod_cast Int.floor_le q

/-- One reconciliation write block never lowers the stored progress. -/
theorem running_update_progress_le (j : JobView) (ns : Status) (np : ℚ)
    (h : 0 ≤ np) :
    j.f_progress ≤ (running_status_progress_update j ns np).1.f_progress := by
  have hfl := pyInt_le_of_nonneg h
  unfold running_status_progress_update
  split_ifs with h1 h2 h3 h4 <;> by_cases hs : ns = j.f_status <;>
    simp_all <;> linarith

/-- A progress propagation is issued only together with the strict-increase
guard, and then the new value is stored. -/
theorem running_update_writes_progress (j : JobView) (ns : Status) (np : ℚ)
    (h : 0 ≤ np)
    (hmem : SyncEffect.sync_job ["progress"] ∈ (running_status_progress_update j ns np).2) :
    j.f_progress < np ∧ (running_status_progress_update j ns np).1.f_progress = np := by
  have hfl := pyInt_le_of_nonneg h
  unfold running_status_progress_update at hmem ⊢
  split_ifs at hmem ⊢ with h1 h2 h3 h4 <;> by_cases hs : ns = j.f_status <;>
    simp_all <;> linarith

/-- The sync_job field update issued by the write block only ever carries the
progress field; the status propagation is the separate sync_job_status
call. -/
theorem running_update_sync_fields (j : JobView) (ns : Status) (np : ℚ)
    (f : List String)
    (hmem : SyncEffect.sync_job f ∈ (running_status_progress_update j ns np).2) :
    f = ["progress"] := by
  unfold running_status_progress_update at hmem
  split_ifs at hmem <;> by_cases hs : ns = j.f_status <;> simp_all

/-- Progress is monotone along any chain of reconciliations. -/
theorem run_reconciliations_mono (steps : List (Status × ℚ))
    (hpos : ∀ s ∈ steps, 0 ≤ s.2) :
    ∀ job : JobView, job.f_progress ≤ (run_reconciliations job steps).f_progress := by
  induction steps with
  | nil => intro job; simp [run_reconciliations]
  | cons s ss ih =>
    intro job
    have h1 := running_update_progress_le job s.1 s.2 (hpos s (List.mem_cons_self s ss))
    have h2 := ih (fun t ht => hpos t (List.mem_cons_of_mem s ht))
      (running_status_progress_update job s.1 s.2).1
    simp only [run_reconciliations, List.foldl_cons] at h2 ⊢
    exact le_trans h1 h2

/-- C5: across every sequence of reconciliations of the same job the stored
progress never decreases; a new progress value is written (and propagated)
only when it strictly exceeds the stored progress, and the progress write is
a field update separate from the status write. -/
theorem schedule_running_progress_monotonic (job : JobView)
    (steps : List (Status × ℚ)) (hpos : ∀ s ∈ steps, 0 ≤ s.2) :
    job.f_progress ≤ (run_reconciliations job steps).f_progress ∧
    (∀ (j : JobView) (ns : Status) (np : ℚ), 0 ≤ np →
      SyncEffect.sync_job ["progress"] ∈ (running_status_progress_update j ns np).2 →
        j.f_progress < np ∧ (running_status_progress_update j ns np).1.f_progress = np) ∧
    (∀ (j : JobView) (ns : Status) (np : ℚ) (f : List String),
      SyncEffect.sync_job f ∈ (running_status_progress_update j ns np).2 →
        f = ["progress"]) := by
  exact ⟨run_reconciliations_mono steps hpos job,
    fun j ns np h hm => running_update_writes_progress j ns np h hm,
    fun j ns np f hm => running_update_sync_fields j ns np f hm⟩

/-- Witness for C5: a two-step reconciliation chain from progress 0 keeps the
stored progress at or above its initial value. -/
theorem schedule_running_progress_monotonic_witness :
    JobView.f_progress ⟨Status.WAITING, 0, false⟩ ≤
      (run_reconciliations ⟨Status.WAITING, 0, false⟩
        [(Status.RUNNING, 50), (Status.SUCCESS, 100)]).f_progress :=
  (schedule_running_progress_monotonic ⟨Status.WAITING, 0, false⟩
    [(Status.RUNNING, 50), (Status.SUCCESS, 100)] (by decide)).1

/-- Modelled from the spec: the status code of a federated fan-out operation
(run_status.FederatedSchedulingStatusCode is not part of the provided
source): overall SUCCESS, a retryable FAILED class, and the hard ERROR
class. -/
inductive FederatedSchedulingStatusCode where
  | SUCCESS
  | FAILED
  | ERROR
deriving DecidableEq, Repr

/-- Modelled from the spec: inheritance descriptor state
(run_status.JobInheritanceStatus is not part of the provided source);
PASS means no unresolved inheritance. -/
inductive JobInheritanceStatus where
  | WAITING
  | PASS
deriving DecidableEq, Repr

/-- Modelled from the spec: the per-party return codes used by the scheduler
(entity.RetCode is not part of the provided source); SUCCESS is the zero
code the source tests with retcode == 0. -/
def RetCode.SUCCESS : Nat := 0

/-- Modelled from the spec: the retryable in-flight return code. -/
def RetCode.RUNNING : Nat := 106

/-- Modelled from the spec: the operating-error return code reported by a
failed submission. -/
def RetCode.OPERATING_ERROR : Nat := 103

/-- Modelled from the spec: the return code of a failed federated stop. -/
def RetCode.FEDERATED_ERROR : Nat := 104

/-- A federated response: role, then party id with its return code, as the
nested dicts role -> party_id -> retcode of the source. -/
abbrev FederatedResponse : Type := List (String × List (String × Nat))

/-- The slice of the Job record read by the waiting-admission phase. -/
structure WaitingJobView where
  f_status : Status
  f_cancel_signal : Bool
  f_inheritance_status : JobInheritanceStatus
deriving DecidableEq, Repr

/-- Environment of schedule_waiting_jobs: outcomes of the dependence check
and of the resource apply fan-out. -/
structure WaitingEnv where
  dependence_status_code : FederatedSchedulingStatusCode
  dependence_response : FederatedResponse
  apply_status_code : FederatedSchedulingStatusCode
  apply_response : FederatedResponse

/-- Federated effects issued by the waiting-admission phase. -/
inductive WaitingEffect where
  | sync_job_status (status : Status)
  | component_check
  | dependence_check
  | resource_apply
  | resource_return (specific_dest : List (String × List String))
  | start_job
  | stop_job (stop_status : Status)
  | federated_stop_job (stop_status : Status)
deriving DecidableEq, Repr

/-- The rollback partition built on a partially failed resource apply: for
each role, the party ids whose apply returned the zero code, roles with no
such party omitted. -/
def rollback_party (federated_response : FederatedResponse) : List (String × List String) :=
  federated_response.filterMap fun rp =>
    let zs := (rp.2.filter fun p => p.2 = 0).map Prod.fst
    if zs = [] then none else some (rp.1, zs)

/-- Membership of a (role, party) pair in a specific_dest mapping. -/
def destContains (d : List (String × List String)) (role party : String) : Prop :=
  ∃ ps, (role, ps) ∈ d ∧ party ∈ ps

/-- Embedding of DAGScheduler.schedule_waiting_jobs: cancel short-circuit,
optional inheritance component check, dependence check, resource apply with
saga rollback of the succeeded partition, and the failure handling of both
checks.  Returns the updated job view and the federated effects issued. -/
def schedule_waiting_jobs (job : WaitingJobView) (env : WaitingEnv) :
    WaitingJobView × List WaitingEffect :=
  if job.f_cancel_signal then
    ({ job with f_status := Status.CANCELED },
     [WaitingEffect.sync_job_status Status.CANCELED])
  else
    let pre :=
      (if job.f_inheritance_status ≠ JobInheritanceStatus.PASS then
        [WaitingEffect.component_check] else [])
      ++ [WaitingEffect.dependence_check]
    if env.dependence_status_code = FederatedSchedulingStatusCode.SUCCESS then
      let pre := pre ++ [WaitingEffect.resource_apply]
      if env.apply_status_code = FederatedSchedulingStatusCode.SUCCESS then
        (job, pre ++ [WaitingEffect.start_job])
      else
        let rollback := rollback_party env.apply_response
        let eff := pre ++
          (if rollback ≠ [] then [WaitingEffect.resource_return rollback] else [])
        if env.apply_status_code = FederatedSchedulingStatusCode.ERROR then
          (job, eff ++ [WaitingEffect.stop_job Status.FAILED])
        else
          (job, eff)
    else
      let retcodes := env.dependence_response.flatMap fun rp => rp.2.map Prod.snd
      if ¬ (∀ c ∈ retcodes, c = RetCode.RUNNING ∨ c = RetCode.SUCCESS) then
        (job, pre ++ [WaitingEffect.federated_stop_job Status.FAILED])
      else
        (job, pre)

/-- Pairs listed in the rollback partition are exactly the (role, party)
pairs whose apply returned the zero code. -/
theorem destContains_rollback (resp : FederatedResponse) (role party : String) :
    destContains (rollback_party resp) role party ↔
      ∃ ps, (role, ps) ∈ resp ∧ ∃ p ∈ ps, p.1 = party ∧ p.2 = 0 := by
  unfold destContains rollback_party
  constructor
  · rintro ⟨ps, hmem, hp⟩
    rw [List.mem_filterMap] at hmem
    obtain ⟨rp, hrp, heq⟩ := hmem
    by_cases hz : ((rp.2.filter fun p => p.2 = 0).map Prod.fst) = []
    · rw [if_pos hz] at heq
      cases heq
    · rw [if_neg hz] at heq
      have hpair := Option.some.inj heq
      have h1 : rp.1 = role := congrArg Prod.fst hpair
      have h2 : ((rp.2.filter fun p => p.2 = 0).map Prod.fst) = ps := congrArg Prod.snd hpair
      subst h1
      rw [← h2, List.mem_map] at hp
      obtain ⟨q, hq, hq1⟩ := hp
      rw [List.mem_filter] at hq
      exact ⟨rp.2, by simpa using hrp, q, hq.1, hq1, by simpa using hq.2⟩
  · rintro ⟨ps, hmem, p, hp, hp1, hp2⟩
    refine ⟨(ps.filter fun q => q.2 = 0).map Prod.fst, ?_, ?_⟩
    · rw [List.mem_filterMap]
      refine ⟨(role, ps), hmem, ?_⟩
      have hpin : p ∈ ps.filter fun q => q.2 = 0 :=
        List.mem_filter.mpr ⟨hp, by simpa using hp2⟩
      have hne : ((ps.filter fun q => q.2 = 0).map Prod.fst) ≠ [] := by
        intro hnil
        have : p.1 ∈ (ps.filter fun q => q.2 = 0).map Prod.fst :=
          List.mem_map.mpr ⟨p, hpin, rfl⟩
        rw [hnil] at this
        exact absurd this (List.not_mem_nil _)
      rw [if_neg hne]
    · have hpin : p ∈ ps.filter fun q => q.2 = 0 :=
        List.mem_filter.mpr ⟨hp, by simpa using hp2⟩
      exact List.mem_map.mpr ⟨p, hpin, hp1⟩

/-- C6: a cancel signal observed by the waiting-admission phase sets the job
status directly to CANCELED, synchronizes it, and returns without the
dependence check, the resource apply or the start command. -/
theorem schedule_waiting_cancel_short_circuit (job : WaitingJobView) (env : WaitingEnv)
    (h : job.f_cancel_signal = true) :
    (schedule_waiting_jobs job env).1.f_status = Status.CANCELED ∧
    (schedule_waiting_jobs job env).2 = [WaitingEffect.sync_job_status Status.CANCELED] ∧
    WaitingEffect.dependence_check ∉ (schedule_waiting_jobs job env).2 ∧
    WaitingEffect.resource_apply ∉ (schedule_waiting_jobs job env).2 ∧
    WaitingEffect.start_job ∉ (schedule_waiting_jobs job env).2 := by
  simp [schedule_waiting_jobs, h]

/-- Witness for C6: a concrete canceled waiting job short-circuits to
CANCELED with only the status synchronization issued. -/
theorem schedule_waiting_cancel_short_circuit_witness :
    (schedule_waiting_jobs ⟨Status.WAITING, true, JobInheritanceStatus.PASS⟩
      ⟨FederatedSchedulingStatusCode.SUCCESS, [], FederatedSchedulingStatusCode.SUCCESS, []⟩).2
      = [WaitingEffect.sync_job_status Status.CANCELED] :=
  (schedule_waiting_cancel_short_circuit
    ⟨Status.WAITING, true, JobInheritanceStatus.PASS⟩
    ⟨FederatedSchedulingStatusCode.SUCCESS, [], FederatedSchedulingStatusCode.SUCCESS, []⟩
    rfl).2.1

/-- C4: when the resource apply does not succeed on all parties, the waiting
phase issues a compensating RETURN to exactly the (role, party) pairs whose
apply returned the zero code and to no other; the job is stopped as FAILED
precisely when the apply status code is the hard ERROR class, and the job
view itself is left unchanged (still WAITING) otherwise. -/
theorem schedule_waiting_resource_rollback (job : WaitingJobView) (env : WaitingEnv)
    (hc : job.f_cancel_signal = false)
    (hdep : env.dependence_status_code = FederatedSchedulingStatusCode.SUCCESS)
    (happly : env.apply_status_code ≠ FederatedSchedulingStatusCode.SUCCESS) :
    (∀ d, WaitingEffect.resource_return d ∈ (schedule_waiting_jobs job env).2 ↔
      (rollback_party env.apply_response ≠ [] ∧ d = rollback_party env.apply_response)) ∧
    (∀ role party, destContains (rollback_party env.apply_response) role party ↔
      ∃ ps, (role, ps) ∈ env.apply_response ∧ ∃ p ∈ ps, p.1 = party ∧ p.2 = 0) ∧
    (WaitingEffect.stop_job Status.FAILED ∈ (schedule_waiting_jobs job env).2 ↔
      env.apply_status_code = FederatedSchedulingStatusCode.ERROR) ∧
    (schedule_waiting_jobs job env).1 = job ∧
    WaitingEffect.start_job ∉ (schedule_waiting_jobs job env).2 := by
  refine ⟨?_, fun role party => destContains_rollback env.apply_response role party, ?_, ?_, ?_⟩ <;>
    by_cases hin : job.f_inheritance_status = JobInheritanceStatus.PASS <;>
    by_cases hrb : rollback_party env.apply_response = [] <;>
    by_cases herr : env.apply_status_code = FederatedSchedulingStatusCode.ERROR <;>
    simp [schedule_waiting_jobs, hc, hdep, happly, hin, hrb, herr]

/-- Witness for C4: with guest parties 9999, 9998 succeeding and host 10000
failing the apply, the rollback partition lists exactly the zero-code
parties. -/
theorem schedule_waiting_resource_rollback_witness :
    destContains
      (rollback_party [("guest", [("9999", 0), ("9998", 0)]), ("host", [("10000", 104)])])
      "guest" "9999" ↔
      ∃ ps, ("guest", ps) ∈
          ([("guest", [("9999", 0), ("9998", 0)]), ("host", [("10000", 104)])] : FederatedResponse)
        ∧ ∃ p ∈ ps, p.1 = "9999" ∧ p.2 = 0 :=
  (schedule_waiting_resource_rollback
    ⟨Status.WAITING, false, JobInheritanceStatus.PASS⟩
    ⟨FederatedSchedulingStatusCode.SUCCESS, [], FederatedSchedulingStatusCode.FAILED,
      [("guest", [("9999", 0), ("9998", 0)]), ("host", [("10000", 104)])]⟩
    rfl rfl (by decide)).2.1 "guest" "9999"

/-- The slice of the Job record read by the stop entry point. -/
structure StopJobView where
  f_status : Status
deriving DecidableEq, Repr

/-- Effects issued by the stop entry point. -/
inductive StopEffect where
  | cancel_signal
  | federated_stop (stop_status : Status)
  | collect_tasks (stop_status : Status)
deriving DecidableEq, Repr

/-- Embedding of DAGScheduler.stop_job: jobs is the result of the
(job id, role, party id, initiator) query; federated_status_code and
response_text are the outcome of the federated stop fan-out.  Returns the
(retcode, message) pair and the effects issued. -/
def stop_job (jobs : List StopJobView) (stop_status : Status)
    (federated_status_code : FederatedSchedulingStatusCode)
    (response_text : String) : (Nat × String) × List StopEffect :=
  if 0 < jobs.length then
    let pre := if stop_status = Status.CANCELED then [StopEffect.cancel_signal] else []
    if federated_status_code = FederatedSchedulingStatusCode.SUCCESS then
      ((RetCode.SUCCESS, "success"), pre ++ [StopEffect.federated_stop stop_status])
    else
      ((RetCode.FEDERATED_ERROR, response_text),
       pre ++ [StopEffect.federated_stop stop_status, StopEffect.collect_tasks stop_status])
  else
    ((RetCode.SUCCESS, "can not found job"), [])

/-- C10: a stop request whose job query matches no record returns the
SUCCESS code with the message "can not found job" and issues no federated
stop, sets no cancel signal and mutates no job state. -/
theorem stop_job_not_found (stop_status : Status)
    (federated_status_code : FederatedSchedulingStatusCode) (response_text : String) :
    stop_job [] stop_status federated_status_code response_text =
      ((RetCode.SUCCESS, "can not found job"), []) := rfl

/-- Modelled from the spec: the external dependency graph consumed by the
rerun logic, nodes named by component name, edges giving execution order. -/
structure DAG where
  edges : List (String × String)

/-- One expansion step of downstream reachability: add every edge target
whose source is already reached. -/
def DAG.step (g : DAG) (s : Finset String) : Finset String :=
  s ∪ ((g.edges.filter fun e => decide (e.1 ∈ s)).map Prod.snd).toFinset

/-- Iterated expansion of downstream reachability. -/
def DAG.reachN (g : DAG) (s : Finset String) : Nat → Finset String
  | 0 => s
  | n + 1 => g.step (g.reachN s n)

/-- All edge targets of the graph. -/
def DAG.targets (g : DAG) : Finset String := (g.edges.map Prod.snd).toFinset

/-- Modelled from the spec: dsl_parser.get_downstream_dependent_components,
the downstream closure of one component (everything that transitively
consumed its output), computed by saturating the one-step expansion. -/
def downstream_dependent_components (g : DAG) (c : String) : Finset String :=
  g.reachN {c} (g.edges.length + 1)

/-- Expansion only grows the reached set. -/
theorem DAG.subset_step (g : DAG) (s : Finset String) : s ⊆ g.step s :=
  Finset.subset_union_left

/-- The start set stays inside every iterate. -/
theorem DAG.subset_reachN (g : DAG) (s : Finset String) :
    ∀ n, s ⊆ g.reachN s n := by
  intro n
  induction n with
  | zero => exact subset_rfl
  | succ n ih => exact ih.trans (g.subset_step _)

/-- Every iterate stays inside the start set plus the edge targets. -/
theorem DAG.reachN_subset (g : DAG) (s : Finset String) :
    ∀ n, g.reachN s n ⊆ s ∪ g.targets := by
  intro n
  induction n with
  | zero => exact Finset.subset_union_left
  | succ n ih =>
    intro x hx
    rcases Finset.mem_union.mp hx with hx | hx
    · exact ih hx
    · refine Finset.mem_union_right _ ?_
      rw [List.mem_toFinset, List.mem_map] at hx
      obtain ⟨e, he, hx⟩ := hx
      rw [List.mem_filter] at he
      exact List.mem_toFinset.mpr (List.mem_map.mpr ⟨e, he.1, hx⟩)

/-- A stabilized iterate never changes again. -/
theorem DAG.reachN_stable (g : DAG) (s : Finset String) (n : Nat)
    (hfix : g.reachN s (n + 1) = g.reachN s n) :
    ∀ m, n ≤ m → g.reachN s m = g.reachN s n := by
  intro m
  induction m with
  | zero => intro h; rw [Nat.le_zero.mp h]
  | succ m ih =>
    intro h
    rcases Nat.lt_or_ge n (m + 1) with hlt | hge
    · have hnm : n ≤ m := Nat.lt_succ_iff.mp hlt
      have : g.reachN s (m + 1) = g.step (g.reachN s m) := rfl
      rw [this, ih hnm]
      exact hfix
    · have : m + 1 = n := Nat.le_antisymm hge h
      rw [this]

/-- Some iterate within the edge-count bound is a fixed point. -/
theorem DAG.exists_reach_fixpoint (g : DAG) (s : Finset String) :
    ∃ n ≤ g.edges.length, g.reachN s (n + 1) = g.reachN s n := by
  by_contra hno
  push_neg at hno
  have hgrow : ∀ m, m ≤ g.edges.length + 1 → m + s.card ≤ (g.reachN s m).card := by
    intro m
    induction m with
    | zero => intro _; simp [DAG.reachN]
    | succ m ih =>
      intro hm
      have hne : g.reachN s (m + 1) ≠ g.reachN s m := hno m (by omega)
      have hsub : g.reachN s m ⊆ g.reachN s (m + 1) := g.subset_step _
      have hss : g.reachN s m ⊂ g.reachN s (m + 1) :=
        Finset.ssubset_iff_subset_ne.mpr ⟨hsub, fun h => hne h.symm⟩
      have hlt := Finset.card_lt_card hss
      have := ih (by omega)
      omega
  have h1 := hgrow (g.edges.length + 1) le_rfl
  have h2 : (g.reachN s (g.edges.length + 1)).card ≤ (s ∪ g.targets).card :=
    Finset.card_le_card (g.reachN_subset s _)
  have h3 : (s ∪ g.targets).card ≤ s.card + g.targets.card := Finset.card_union_le _ _
  have h4 : g.targets.card ≤ g.edges.length := by
    have := (g.edges.map Prod.snd).toFinset_card_le
    simpa [DAG.targets] using this
  omega

/-- The downstream closure is closed under following an edge. -/
theorem downstream_closed (g : DAG) (r c d : String)
    (hc : c ∈ downstream_dependent_components g r) (he : (c, d) ∈ g.edges) :
    d ∈ downstream_dependent_components g r := by
  obtain ⟨n, hn, hfix⟩ := g.exists_reach_fixpoint {r}
  have hF : g.reachN {r} (g.edges.length + 1) = g.reachN {r} n :=
    g.reachN_stable _ n hfix _ (by omega)
  have hF1 : g.reachN {r} (g.edges.length + 2) = g.reachN {r} n :=
    g.reachN_stable _ n hfix _ (by omega)
  unfold downstream_dependent_components at hc ⊢
  have hstep : d ∈ g.step (g.reachN {r} (g.edges.length + 1)) := by
    refine Finset.mem_union_right _ ?_
    rw [List.mem_toFinset, List.mem_map]
    refine ⟨(c, d), List.mem_filter.mpr ⟨he, ?_⟩, rfl⟩
    simpa using hc
  have : g.step (g.reachN {r} (g.edges.length + 1)) = g.reachN {r} (g.edges.length + 2) := rfl
  rw [this, hF1, ← hF] at hstep
  exact hstep

/-- A component is in its own downstream closure. -/
theorem self_mem_downstream (g : DAG) (c : String) :
    c ∈ downstream_dependent_components g c :=
  g.subset_reachN {c} _ (Finset.mem_singleton_self c)

/-- The whole-pipeline sentinel component name
(job_utils.PIPELINE_COMPONENT_NAME, a constant of the external job_utils). -/
def PIPELINE_COMPONENT_NAME : String := "pipeline"

/-- Embedding of the component-set resolution of DAGScheduler.set_job_rerun
(no explicit task list): an empty or sentinel request selects every
component; otherwise the requested set is expanded with each requested
component's downstream dependents. -/
def set_job_rerun_components (g : DAG) (all_components : Finset String)
    (component_name : List String) : Finset String :=
  if component_name = [] ∨ component_name = [PIPELINE_COMPONENT_NAME] then
    all_components
  else
    component_name.foldl (fun acc c => acc ∪ downstream_dependent_components g c)
      component_name.toFinset

/-- Membership after folding unions over a list. -/
theorem mem_foldl_union (f : String → Finset String) :
    ∀ (l : List String) (acc : Finset String) (x : String),
      (x ∈ l.foldl (fun a c => a ∪ f c) acc ↔ x ∈ acc ∨ ∃ c ∈ l, x ∈ f c) := by
  intro l
  induction l with
  | nil => simp
  | cons c cs ih =>
    intro acc x
    rw [List.foldl_cons, ih]
    simp only [Finset.mem_union, List.mem_cons]
    constructor
    · rintro ((h | h) | ⟨r, hr, hx⟩)
      · exact Or.inl h
      · exact Or.inr ⟨c, Or.inl rfl, h⟩
      · exact Or.inr ⟨r, Or.inr hr, hx⟩
    · rintro (h | ⟨r, (rfl | hr), hx⟩)
      · exact Or.inl (Or.inl h)
      · exact Or.inl (Or.inr hx)
      · exact Or.inr ⟨r, hr, hx⟩

/-- The three-component linear graph X to Y to Z of the spec's rerun
example. -/
def lineXYZ : DAG := ⟨[("X", "Y"), ("Y", "Z")]⟩

/-- C7: a rerun request naming a non-empty, non-sentinel component set is
expanded with all downstream dependents, so the selected set contains the
request and is closed under following an edge; on the line X to Y to Z
requesting X selects X, Y, Z and requesting Y selects Y, Z only; an empty
or sentinel request selects all components. -/
theorem set_job_rerun_dependency_closed (g : DAG) (all_components : Finset String)
    (component_name : List String) (hne : component_name ≠ [])
    (hsent : component_name ≠ [PIPELINE_COMPONENT_NAME]) :
    (∀ c ∈ component_name, c ∈ set_job_rerun_components g all_components component_name) ∧
    (∀ c d, c ∈ set_job_rerun_components g all_components component_name →
      (c, d) ∈ g.edges →
      d ∈ set_job_rerun_components g all_components component_name) ∧
    set_job_rerun_components lineXYZ {"X", "Y", "Z"} ["X"] = {"X", "Y", "Z"} ∧
    set_job_rerun_components lineXYZ {"X", "Y", "Z"} ["Y"] = {"Y", "Z"} ∧
    (∀ all : Finset String, set_job_rerun_components g all [] = all ∧
      set_job_rerun_components g all [PIPELINE_COMPONENT_NAME] = all) := by
  have hcond : ¬(component_name = [] ∨ component_name = [PIPELINE_COMPONENT_NAME]) := by
    rintro (h | h)
    · exact hne h
    · exact hsent h
  refine ⟨?_, ?_, by decide, by decide,
    fun all => ⟨by simp [set_job_rerun_components], by simp [set_job_rerun_components]⟩⟩
  · intro c hc
    unfold set_job_rerun_components
    rw [if_neg hcond, mem_foldl_union]
    exact Or.inl (List.mem_toFinset.mpr hc)
  · intro c d hc hedge
    unfold set_job_rerun_components at hc ⊢
    rw [if_neg hcond, mem_foldl_union] at hc ⊢
    rcases hc with hc | ⟨r, hr, hcr⟩
    · refine Or.inr ⟨c, List.mem_toFinset.mp hc, ?_⟩
      exact downstream_closed g c c d (self_mem_downstream g c) hedge
    · exact Or.inr ⟨r, hr, downstream_closed g r c d hcr hedge⟩

/-- Witness for C7: on the line X to Y to Z, requesting Y selects exactly Y
and Z. -/
theorem set_job_rerun_dependency_closed_witness :
    set_job_rerun_components lineXYZ {"X", "Y", "Z"} ["Y"] = {"Y", "Z"} :=
  (set_job_rerun_dependency_closed lineXYZ {"X", "Y", "Z"} ["Y"]
    (by decide) (by decide)).2.2.2.1

/-- An exception value, carrying its message. -/
structure Exn where
  msg : String
deriving DecidableEq, Repr

/-- The captured failure trace of an exception
(log_utils.exception_to_trace_string). -/
def exception_to_trace_string (e : Exn) : String := "Traceback: " ++ e.msg

/-- Outcomes of every fallible collaborator call made inside submit, in
source order. -/
structure SubmitEnv where
  generated_job_id : String
  check_job_conf : Except Exn Unit
  job_type : String
  conf_version : Nat
  check_model_config : Except Exn Unit
  model_deployed : Bool
  read_pipeline_model : Except Exn Unit
  save_job_conf : Except Exn (List (String × String))
  initiator_in_roles : Bool
  create_common_parameters : Except Exn Unit
  get_dsl_parsing : Except Exn Unit
  inheritance_check : Except Exn Unit
  create_job_status : FederatedSchedulingStatusCode
  sync_waiting_status : FederatedSchedulingStatusCode
  warn_parameter : Option String

/-- The structured result of submit. -/
structure SubmitResult where
  job_id : String
  code : Nat
  message : String
  path_dict : List (String × String)
deriving DecidableEq, Repr

/-- The body of DAGScheduler.submit inside its try block: validation, the
predict-versus-training branch, configuration persistence, federated job
creation and the WAITING synchronization, in source order; every raise is an
Except.error. -/
def submit_body (env : SubmitEnv) : Except Exn (Nat × String × List (String × String)) := do
  env.check_job_conf
  if env.job_type ≠ "predict" then
    if env.conf_version ≠ 2 then
      throw ⟨"only the v2 version runtime conf is supported"⟩
    else
      pure ()
  else do
    env.check_model_config
    if ¬ env.model_deployed then
      throw ⟨"model has not been deployed yet"⟩
    else
      pure ()
    env.read_pipeline_model
  let path_dict ← env.save_job_conf
  if ¬ env.initiator_in_roles then
    throw ⟨"initiator party id not in roles"⟩
  else
    pure ()
  env.create_common_parameters
  env.get_dsl_parsing
  env.inheritance_check
  if env.create_job_status ≠ FederatedSchedulingStatusCode.SUCCESS then
    throw ⟨"create job failed"⟩
  else
    pure ()
  if env.sync_waiting_status ≠ FederatedSchedulingStatusCode.SUCCESS then
    throw ⟨"set job to waiting status failed"⟩
  else
    pure ()
  let message :=
    match env.warn_parameter with
    | some w => "[WARN]" ++ w ++ " is removed,it does not take effect!"
    | none => "success"
  return (RetCode.SUCCESS, message, path_dict)

/-- Embedding of DAGScheduler.submit: the job id is resolved up front, the
body runs inside the try block, and the except clause turns any exception
into an OPERATING_ERROR result carrying the trace string. -/
def submit (env : SubmitEnv) (job_id_arg : Option String) : SubmitResult :=
  let job_id := job_id_arg.getD env.generated_job_id
  match submit_body env with
  | Except.ok (code, message, path_dict) =>
    { job_id := job_id, code := code, message := message, path_dict := path_dict }
  | Except.error e =>
    { job_id := job_id, code := RetCode.OPERATING_ERROR,
      message := exception_to_trace_string e, path_dict := [] }

/-- C8: submit never propagates an exception past its boundary: for every
environment of collaborator outcomes it returns a result carrying the
resolved job id; when the body fails with any exception the result carries
the OPERATING_ERROR code and the captured trace string as its message, and
when the body succeeds the result carries the body's code, message and path
dictionary. -/
theorem submit_never_raises (env : SubmitEnv) (job_id_arg : Option String) :
    (submit env job_id_arg).job_id = job_id_arg.getD env.generated_job_id ∧
    (∀ e, submit_body env = Except.error e →
      (submit env job_id_arg).code = RetCode.OPERATING_ERROR ∧
      (submit env job_id_arg).message = exception_to_trace_string e) ∧
    (∀ c m p, submit_body env = Except.ok (c, m, p) →
      submit env job_id_arg =
        { job_id := job_id_arg.getD env.generated_job_id,
          code := c, message := m, path_dict := p }) := by
  refine ⟨?_, ?_, ?_⟩
  · cases hbody : submit_body env with
    | ok r =>
      obtain ⟨c, m, p⟩ := r
      simp [submit, hbody]
    | error e => simp [submit, hbody]
  · intro e he
    constructor <;> simp [submit, he]
  · intro c m p hok
    simp [submit, hok]

/-- Witness for C8: a failing configuration check is reported as an
OPERATING_ERROR result with the trace string, not raised. -/
theorem submit_never_raises_witness :
    (submit
      ⟨"202601010000000000000", Except.error ⟨"bad conf"⟩, "train", 2,
        Except.ok (), true, Except.ok (), Except.ok [], true, Except.ok (),
        Except.ok (), Except.ok (), FederatedSchedulingStatusCode.SUCCESS,
        FederatedSchedulingStatusCode.SUCCESS, none⟩
      none).code = RetCode.OPERATING_ERROR :=
  ((submit_never_raises
    ⟨"202601010000000000000", Except.error ⟨"bad conf"⟩, "train", 2,
      Except.ok (), true, Except.ok (), Except.ok [], true, Except.ok (),
      Except.ok (), Except.ok (), FederatedSchedulingStatusCode.SUCCESS,
      FederatedSchedulingStatusCode.SUCCESS, none⟩
    none).2.1 ⟨"bad conf"⟩ rfl).1
